import Mathlib

set_option autoImplicit false

/-!
Verification of the Firestore local persistence/view layer: the remote
document cache contract, the mutation-queue contract, and the local
documents view (`Firestore/core/src/local/local_documents_view.cc`).

`LocalDocumentsView` and its helpers are translated directly from
`local_documents_view.cc`.  The collaborators it consumes (the remote
document cache implementation, the mutation model, the query model, the
mutation queue and the index manager) are not part of the reviewed source
tree; their definitions below are modelled from the specification and are
marked as such in their doc comments.
-/

namespace Firestore

/-- A resource path: a slash separated path, one segment per list element
(embeds `model::ResourcePath`). -/
abbrev ResourcePath := List String

/-- A document key: a resource path addressing a single document
(embeds `model::DocumentKey`). -/
abbrev DocumentKey := List String

/-- Modelled from the spec: `model::ResourcePath::IsPrefixOf` is not under
src/.  A path is a prefix of another when the second starts with all of the
first's segments. -/
def ResourcePath.isPrefixOfPath : ResourcePath → List String → Bool
  | [], _ => true
  | _ :: _, [] => false
  | a :: as, b :: bs => decide (a = b) && ResourcePath.isPrefixOfPath as bs

/-- Modelled from the spec: `model::ResourcePath::IsImmediateParentOf` is not
under src/.  A path is the immediate parent of a key when the key extends it
by exactly one segment (nested sub-collection documents are excluded). -/
def ResourcePath.isImmediateParentOf (p : ResourcePath) (k : DocumentKey) : Bool :=
  ResourcePath.isPrefixOfPath p k && decide (k.length = p.length + 1)

/-- The four lifecycle variants of a document (spec section 3). -/
inductive DocumentType
  | invalid
  | found
  | noDoc
  | unknownDoc
deriving DecidableEq, Repr

/-- A structured field value.  The structured-value library is an external
collaborator; integers carry enough structure for every claim. -/
abbrev FieldValue := Int

/-- A document's data: an association list from field name to value (embeds
`model::ObjectValue` at the granularity the claims need). -/
abbrev ObjectValue := List (String × FieldValue)

def ObjectValue.getField : ObjectValue → String → Option FieldValue
  | [], _ => none
  | e :: rest, f => if e.1 = f then some e.2 else ObjectValue.getField rest f

def ObjectValue.removeField (o : ObjectValue) (f : String) : ObjectValue :=
  o.filter (fun e => decide (e.1 ≠ f))

def ObjectValue.setField (o : ObjectValue) (f : String) (v : FieldValue) : ObjectValue :=
  (f, v) :: ObjectValue.removeField o f

/-- Embeds `model::MutableDocument` (the value wrapped by `model::Document`
declared in src/ `model/document.h`): one key's state, in exactly one of the
four variants, with a version (`SnapshotVersion` as a logical timestamp), its
data, and whether local mutations have been applied to it. -/
structure MutableDocument where
  key : DocumentKey
  docType : DocumentType
  version : Nat
  value : ObjectValue
  hasLocalMutations : Bool
deriving DecidableEq, Repr

def MutableDocument.invalidDocument (k : DocumentKey) : MutableDocument :=
  ⟨k, DocumentType.invalid, 0, [], false⟩

def MutableDocument.foundDocument (k : DocumentKey) (version : Nat) (value : ObjectValue) :
    MutableDocument :=
  ⟨k, DocumentType.found, version, value, false⟩

def MutableDocument.noDocument (k : DocumentKey) (version : Nat) : MutableDocument :=
  ⟨k, DocumentType.noDoc, version, [], false⟩

def MutableDocument.unknownDocument (k : DocumentKey) (version : Nat) : MutableDocument :=
  ⟨k, DocumentType.unknownDoc, version, [], false⟩

/-- `is_document()` / `is_found_document()`: the variant that carries data. -/
def MutableDocument.isFoundDocument (d : MutableDocument) : Bool :=
  decide (d.docType = DocumentType.found)

def MutableDocument.isUnknownDocument (d : MutableDocument) : Bool :=
  decide (d.docType = DocumentType.unknownDoc)

def MutableDocument.isInvalid (d : MutableDocument) : Bool :=
  decide (d.docType = DocumentType.invalid)

/-- Modelled from the spec: `model::Precondition` is not under src/.  A guard
(none / must-exist / update-time-matches) checked against the base document
before a mutation applies. -/
inductive Precondition
  | none
  | existsDoc (b : Bool)
  | updateTime (v : Nat)
deriving DecidableEq, Repr

/-- Modelled from the spec: `Precondition::IsValidFor` is not under src/.
`none` always holds; `existsDoc b` holds when found-ness equals `b`;
`updateTime v` holds for a found document whose update time is `v`. -/
def Precondition.holdsFor : Precondition → MutableDocument → Bool
  | Precondition.none, _ => true
  | Precondition.existsDoc b, d => decide (d.isFoundDocument = b)
  | Precondition.updateTime v, d => d.isFoundDocument && decide (d.version = v)

/-- Modelled from the spec: the mutation variants (`Set`, `Patch`, `Delete`,
`Verify`) are not under src/.  Field transforms are produced server side and
only estimated locally (pass-through in the spec), so they are omitted. -/
inductive MutationOp
  | set (value : ObjectValue)
  | patch (value : ObjectValue) (mask : List String)
  | delete
  | verify
deriving DecidableEq, Repr

/-- Modelled from the spec: `model::Mutation` is not under src/.  A single
pending write: a target key, an operation, and a precondition. -/
structure Mutation where
  key : DocumentKey
  op : MutationOp
  precondition : Precondition
deriving DecidableEq, Repr

/-- `mutation.type() == Mutation::Type::Patch`. -/
def Mutation.isPatch (m : Mutation) : Bool :=
  match m.op with
  | MutationOp.patch _ _ => true
  | _ => false

/-- Modelled from the spec: patch merge (`PatchMutation`) is not under src/.
For each field of the mask, take the mutation's value for it if present,
otherwise delete the field from the base data. -/
def patchObject (base data : ObjectValue) (mask : List String) : ObjectValue :=
  mask.foldl
    (fun acc f =>
      match ObjectValue.getField data f with
      | some v => ObjectValue.setField acc f v
      | Option.none => ObjectValue.removeField acc f)
    base

/-- The version carried by the locally mutated document: the base version for
a found base, the minimal version otherwise. -/
def postMutationVersion (d : MutableDocument) : Nat :=
  if d.isFoundDocument then d.version else 0

/-- Modelled from the spec: `Mutation::ApplyToLocalView` and the per-variant
apply functions are not under src/.  The precondition is checked against the
base document; a failed precondition yields the base document unchanged (a
silent no-op, never an error).  `set` replaces the full value, `patch` merges
masked fields, `delete` yields a `NoDocument` state, `verify` has no data
effect. -/
def Mutation.applyToDocument (m : Mutation) (d : MutableDocument)
    (_localWriteTime : Nat) : MutableDocument :=
  if m.precondition.holdsFor d then
    match m.op with
    | MutationOp.set v => ⟨m.key, DocumentType.found, postMutationVersion d, v, true⟩
    | MutationOp.patch v mask =>
        ⟨m.key, DocumentType.found, postMutationVersion d, patchObject d.value v mask, true⟩
    | MutationOp.delete => ⟨m.key, DocumentType.noDoc, 0, [], true⟩
    | MutationOp.verify => d
  else d

/-- Modelled from the spec: the optional-base-document form of
`Mutation::ApplyToLocalView`; an absent base is the `Invalid` state. -/
def Mutation.applyToLocalView (m : Mutation) (base : Option MutableDocument)
    (localWriteTime : Nat) : MutableDocument :=
  m.applyToDocument (base.getD (MutableDocument.invalidDocument m.key)) localWriteTime

/-- Modelled from the spec: `model::MutationBatch` is not under src/.  An
ordered sequence of mutations committed together, with a monotonically
increasing batch id and a local write timestamp. -/
structure MutationBatch where
  batchId : Nat
  localWriteTime : Nat
  mutations : List Mutation
deriving DecidableEq, Repr

/-- Modelled from the spec: `MutationBatch::ApplyToLocalDocument` is not under
src/.  Applies, in order, every mutation of the batch whose key is the given
key to the document. -/
def MutationBatch.applyToLocalDocument (b : MutationBatch) (d : MutableDocument)
    (k : DocumentKey) : MutableDocument :=
  b.mutations.foldl
    (fun d m => if m.key = k then m.applyToDocument d b.localWriteTime else d) d

/-- `model::DocumentMap` / `MutableDocumentMap`: an ordered, key-unique
associative container over documents.  The container library is external;
an association list whose `insert` removes the old binding first realises
the observable contract (spec section 3). -/
abbrev DocumentMap := List (DocumentKey × MutableDocument)

/-- `model::MutableDocumentMap`; structurally identical to `DocumentMap`
here since `model::Document` is a value wrapper around `MutableDocument`
(src/ `model/document.h`). -/
abbrev MutableDocumentMap := DocumentMap

def DocumentMap.lookup : DocumentMap → DocumentKey → Option MutableDocument
  | [], _ => none
  | e :: rest, k => if e.1 = k then some e.2 else DocumentMap.lookup rest k

def DocumentMap.containsKey (m : DocumentMap) (k : DocumentKey) : Bool :=
  (DocumentMap.lookup m k).isSome

def DocumentMap.erase : DocumentMap → DocumentKey → DocumentMap
  | [], _ => []
  | e :: rest, k =>
    if e.1 = k then DocumentMap.erase rest k else e :: DocumentMap.erase rest k

def DocumentMap.insert (m : DocumentMap) (k : DocumentKey) (d : MutableDocument) :
    DocumentMap :=
  (k, d) :: DocumentMap.erase m k

/-- The keys of a map are pairwise distinct. -/
def DocumentMap.NodupKeys (m : DocumentMap) : Prop :=
  (m.map Prod.fst).Nodup

/-- `model::DocumentKeySet`: an ordered, key-unique set of document keys. -/
abbrev DocumentKeySet := List DocumentKey

def DocumentKeySet.containsKey (s : DocumentKeySet) (k : DocumentKey) : Bool :=
  s.any (fun x => decide (x = k))

def DocumentKeySet.insert (s : DocumentKeySet) (k : DocumentKey) : DocumentKeySet :=
  if DocumentKeySet.containsKey s k then s else k :: s

/-- One stored entry of the remote document cache: the last known server
state for a key together with the read time at which it was observed. -/
structure CacheEntry where
  key : DocumentKey
  doc : MutableDocument
  readTime : Nat
deriving DecidableEq, Repr

/-- Modelled from the spec: the `RemoteDocumentCache` implementation
(`memory_remote_document_cache.cc`) is not under src/ (only its tests are);
its storage is a key-unique association of entries (spec section 4.1). -/
structure RemoteDocumentCache where
  entries : List CacheEntry
deriving DecidableEq, Repr

def RemoteDocumentCache.empty : RemoteDocumentCache := ⟨[]⟩

def RemoteDocumentCache.find (c : RemoteDocumentCache) (k : DocumentKey) :
    Option CacheEntry :=
  c.entries.find? (fun e => decide (e.key = k))

/-- Modelled from the spec: `Add(document, readTime)` upserts the document's
latest known server-confirmed state, overwriting any prior entry for the
same key. -/
def RemoteDocumentCache.Add (c : RemoteDocumentCache) (doc : MutableDocument)
    (readTime : Nat) : RemoteDocumentCache :=
  ⟨⟨doc.key, doc, readTime⟩ :: c.entries.filter (fun e => decide (e.key ≠ doc.key))⟩

/-- Modelled from the spec: `Remove(key)` marks the key as having no cached
server state, so a subsequent `Get` returns `UnknownDocument`; removing an
absent key is a no-op, never an error. -/
def RemoteDocumentCache.Remove (c : RemoteDocumentCache) (k : DocumentKey) :
    RemoteDocumentCache :=
  match c.find k with
  | some e => c.Add (MutableDocument.unknownDocument k e.doc.version) e.readTime
  | none => c

/-- Modelled from the spec: `Get(key)` returns `Invalid` if never cached,
otherwise the stored variant, always as a value copy. -/
def RemoteDocumentCache.Get (c : RemoteDocumentCache) (k : DocumentKey) :
    MutableDocument :=
  match c.find k with
  | some e => e.doc
  | none => MutableDocument.invalidDocument k

/-- Modelled from the spec: `GetAll(keys)` returns one entry per requested
key, using `Invalid` for keys with no cached state. -/
def RemoteDocumentCache.GetAll (c : RemoteDocumentCache) (keys : DocumentKeySet) :
    MutableDocumentMap :=
  keys.map (fun k => (k, c.Get k))

/-- Well-formed cache storage: key uniqueness, the cache's only
cross-document invariant (spec section 4.1). -/
abbrev RemoteDocumentCache.WF (c : RemoteDocumentCache) : Prop :=
  (c.entries.map CacheEntry.key).Nodup

/-- The comparison operators of a field filter. -/
inductive FilterOp
  | lt
  | le
  | eq
  | ne
  | gt
  | ge
deriving DecidableEq, Repr

/-- Modelled from the spec: `core::FieldFilter` is not under src/.  A single
field predicate of a query. -/
structure FieldFilter where
  field : String
  op : FilterOp
  value : FieldValue
deriving DecidableEq, Repr

/-- A field filter holds when the field is present and the comparison holds. -/
def FieldFilter.matchesValue (fl : FieldFilter) (o : ObjectValue) : Bool :=
  match ObjectValue.getField o fl.field with
  | none => false
  | some v =>
    match fl.op with
    | FilterOp.lt => decide (v < fl.value)
    | FilterOp.le => decide (v ≤ fl.value)
    | FilterOp.eq => decide (v = fl.value)
    | FilterOp.ne => decide (v ≠ fl.value)
    | FilterOp.gt => decide (fl.value < v)
    | FilterOp.ge => decide (fl.value ≤ v)

/-- Modelled from the spec: `core::Query` is not under src/.  A query has a
path, an optional collection-group id, field filters and order-by fields. -/
structure Query where
  path : ResourcePath
  collectionGroup : Option String
  filters : List FieldFilter
  orderBys : List String

/-- A document query targets one exact document path: an even number of
segments, no collection group, no filters. -/
def Query.isDocumentQuery (q : Query) : Bool :=
  decide (q.path.length % 2 = 0) && q.collectionGroup.isNone && q.filters.isEmpty

def Query.isCollectionGroupQuery (q : Query) : Bool :=
  q.collectionGroup.isSome

/-- `Query::AsCollectionQueryAtPath`: the same predicate re-targeted at a
fixed collection path, dropping the collection group. -/
def Query.asCollectionQueryAtPath (q : Query) (p : ResourcePath) : Query :=
  ⟨p, none, q.filters, q.orderBys⟩

/-- The key's collection id: its second-to-last segment. -/
def DocumentKey.hasCollectionId (k : DocumentKey) (cid : String) : Bool :=
  match k.dropLast.getLast? with
  | some s => decide (s = cid)
  | none => false

/-- Modelled from the spec: the query path predicate of `core::Query::Matches`
is not under src/.  A collection-group query matches keys with the group's
collection id under the query path; a document query matches the exact path;
a collection query matches immediate children of the path. -/
def Query.matchesPath (q : Query) (k : DocumentKey) : Bool :=
  match q.collectionGroup with
  | some cid => DocumentKey.hasCollectionId k cid && ResourcePath.isPrefixOfPath q.path k
  | none =>
    if q.path.length % 2 = 0 then decide (q.path = k)
    else ResourcePath.isImmediateParentOf q.path k

/-- Modelled from the spec: `core::Query::Matches` is not under src/.  The
query's full predicate: only a found document can match, its key must match
the query path, every field filter must hold, and every order-by field must
be present (order-by feasibility). -/
def Query.Matches (q : Query) (d : MutableDocument) : Bool :=
  d.isFoundDocument && Query.matchesPath q d.key &&
    q.filters.all (fun fl => FieldFilter.matchesValue fl d.value) &&
    q.orderBys.all (fun f => (ObjectValue.getField d.value f).isSome)

/-- Modelled from the spec: `GetMatching(query, sinceReadTime)` returns the
cached documents whose key is an immediate child of the query's collection
path and whose read time strictly exceeds `sinceReadTime`.  This is a
path scan only: field filters and order-bys are not evaluated here. -/
def RemoteDocumentCache.GetMatching (c : RemoteDocumentCache) (q : Query)
    (sinceReadTime : Nat) : DocumentMap :=
  (c.entries.filter
      (fun e =>
        ResourcePath.isImmediateParentOf q.path e.key && decide (sinceReadTime < e.readTime))).map
    (fun e => (e.key, e.doc))

/-- Modelled from the spec: the `MutationQueue` implementation is not under
src/ (spec section 4.2 specifies the consumed contract only); it durably
stores the pending batches, ordered by batch id. -/
structure MutationQueue where
  batches : List MutationBatch

/-- A batch list in non-decreasing batch-id order. -/
abbrev BatchesSortedById (l : List MutationBatch) : Prop :=
  l.Pairwise (fun a b => a.batchId ≤ b.batchId)

/-- Modelled from the spec: any batch containing at least one mutation whose
key is the given key, in batch-id order. -/
def MutationQueue.AllMutationBatchesAffectingDocumentKey (mq : MutationQueue)
    (k : DocumentKey) : List MutationBatch :=
  mq.batches.filter (fun b => b.mutations.any (fun m => decide (m.key = k)))

/-- Modelled from the spec: the union across the key set, still globally
ordered by batch id, without duplicates. -/
def MutationQueue.AllMutationBatchesAffectingDocumentKeys (mq : MutationQueue)
    (keys : DocumentKeySet) : List MutationBatch :=
  mq.batches.filter (fun b => b.mutations.any (fun m => DocumentKeySet.containsKey keys m.key))

/-- Modelled from the spec: any batch containing at least one mutation whose
key is an immediate child of the query's path, in batch-id order. -/
def MutationQueue.AllMutationBatchesAffectingQuery (mq : MutationQueue) (q : Query) :
    List MutationBatch :=
  mq.batches.filter
    (fun b => b.mutations.any (fun m => ResourcePath.isImmediateParentOf q.path m.key))

/-- Modelled from the spec: the Index Manager collaborator (spec section 6);
`GetCollectionParents(collectionId)` lists every known parent path containing
a collection with that id. -/
structure IndexManager where
  collectionParents : String → List ResourcePath

/-- The local documents view: stateless, holding non-owning references to the
remote document cache, the mutation queue and the index manager
(`local_documents_view.h`). -/
structure LocalDocumentsView where
  cache : RemoteDocumentCache
  queue : MutationQueue
  indexManager : IndexManager

/-- `LocalDocumentsView::GetDocument(key, batches)`: fetch the base document
from the cache and apply each batch to it in order. -/
def LocalDocumentsView.GetDocumentFromBatches (v : LocalDocumentsView)
    (key : DocumentKey) (batches : List MutationBatch) : MutableDocument :=
  batches.foldl (fun d b => MutationBatch.applyToLocalDocument b d key)
    (RemoteDocumentCache.Get v.cache key)

/-- `LocalDocumentsView::GetDocument(key)`: the batches affecting the key,
folded onto the cached base document. -/
def LocalDocumentsView.GetDocument (v : LocalDocumentsView) (key : DocumentKey) :
    MutableDocument :=
  LocalDocumentsView.GetDocumentFromBatches v key
    (MutationQueue.AllMutationBatchesAffectingDocumentKey v.queue key)

/-- `LocalDocumentsView::ApplyLocalMutationsToDocuments`: applies the batches
to each document of the map, per key.  Modelled from the spec: the write-back
of the in-place `ApplyToLocalDocument` into the map entry relies on
`model::MutableDocument` (not under src/) whose copies share their mutable
state; the spec fixes the result as a per-key fold (spec section 4.3). -/
def LocalDocumentsView.ApplyLocalMutationsToDocuments (docs : MutableDocumentMap)
    (batches : List MutationBatch) : MutableDocumentMap :=
  docs.map
    (fun e => (e.1, batches.foldl (fun d b => MutationBatch.applyToLocalDocument b d e.1) e.2))

/-- `LocalDocumentsView::GetLocalViewOfDocuments`: collect the keys, fetch the
union of affecting batches, fold them onto each document, and return the
result map. -/
def LocalDocumentsView.GetLocalViewOfDocuments (v : LocalDocumentsView)
    (docs : MutableDocumentMap) : DocumentMap :=
  let allKeys := docs.foldl (fun s e => DocumentKeySet.insert s e.1) []
  let batches := MutationQueue.AllMutationBatchesAffectingDocumentKeys v.queue allKeys
  let docs2 := LocalDocumentsView.ApplyLocalMutationsToDocuments docs batches
  docs2.foldl (fun results e => DocumentMap.insert results e.1 e.2) []

/-- `LocalDocumentsView::GetDocuments(keys)`: fetch once from the cache, then
take the local view. -/
def LocalDocumentsView.GetDocuments (v : LocalDocumentsView) (keys : DocumentKeySet) :
    DocumentMap :=
  LocalDocumentsView.GetLocalViewOfDocuments v (RemoteDocumentCache.GetAll v.cache keys)

/-- The key-collection loop of `LocalDocumentsView::AddMissingBaseDocuments`:
the keys of patch mutations across the batches that are not already present
in the result map. -/
def LocalDocumentsView.missingPatchKeys (matchingBatches : List MutationBatch)
    (existingDocs : DocumentMap) : DocumentKeySet :=
  matchingBatches.foldl
    (fun s b =>
      b.mutations.foldl
        (fun s m =>
          if m.isPatch && !(DocumentMap.containsKey existingDocs m.key) then
            DocumentKeySet.insert s m.key
          else s)
        s)
    []

/-- `LocalDocumentsView::AddMissingBaseDocuments`: fetch the base documents
of the missing patch keys from the cache, and insert those that resolve to
found documents into the result map. -/
def LocalDocumentsView.AddMissingBaseDocuments (v : LocalDocumentsView)
    (matchingBatches : List MutationBatch) (existingDocs : DocumentMap) : DocumentMap :=
  let missingDocKeys := LocalDocumentsView.missingPatchKeys matchingBatches existingDocs
  let missingDocs := RemoteDocumentCache.GetAll v.cache missingDocKeys
  missingDocs.foldl
    (fun acc e => if e.2.isFoundDocument then DocumentMap.insert acc e.1 e.2 else acc)
    existingDocs

/-- One step of the mutation-folding loop of
`GetDocumentsMatchingCollectionQuery`: mutations whose key is not an
immediate child of the query path are skipped; otherwise the mutation is
applied to the current working document for the key, the entry is replaced
when the result is a found document and erased otherwise. -/
def LocalDocumentsView.applyMutationStep (q : Query) (localWriteTime : Nat)
    (results : DocumentMap) (m : Mutation) : DocumentMap :=
  if ResourcePath.isImmediateParentOf q.path m.key then
    let mutated := Mutation.applyToLocalView m (DocumentMap.lookup results m.key) localWriteTime
    if mutated.isFoundDocument then DocumentMap.insert results m.key mutated
    else DocumentMap.erase results m.key
  else results

/-- The final filter of `GetDocumentsMatchingCollectionQuery`: iterate over
the unfiltered results and erase every document that does not match the
query. -/
def LocalDocumentsView.filterByQuery (q : Query) (results : DocumentMap) : DocumentMap :=
  results.foldl
    (fun res e => if Query.Matches q e.2 then res else DocumentMap.erase res e.1) results

/-- `LocalDocumentsView::GetDocumentsMatchingCollectionQuery`: remote results,
missing base documents, the mutation fold in batch order, then the final
predicate filter. -/
def LocalDocumentsView.GetDocumentsMatchingCollectionQuery (v : LocalDocumentsView)
    (q : Query) (sinceReadTime : Nat) : DocumentMap :=
  let results := RemoteDocumentCache.GetMatching v.cache q sinceReadTime
  let matchingBatches := MutationQueue.AllMutationBatchesAffectingQuery v.queue q
  let withBase := LocalDocumentsView.AddMissingBaseDocuments v matchingBatches results
  let folded :=
    matchingBatches.foldl
      (fun results batch =>
        batch.mutations.foldl
          (LocalDocumentsView.applyMutationStep q batch.localWriteTime) results)
      withBase
  LocalDocumentsView.filterByQuery q folded

/-- `LocalDocumentsView::GetDocumentsMatchingDocumentQuery`: a simple document
lookup, included only when it resolves to a found document. -/
def LocalDocumentsView.GetDocumentsMatchingDocumentQuery (v : LocalDocumentsView)
    (docPath : ResourcePath) : DocumentMap :=
  let doc := LocalDocumentsView.GetDocument v docPath
  if doc.isFoundDocument then DocumentMap.insert [] doc.key doc else []

/-- `LocalDocumentsView::GetDocumentsMatchingCollectionGroupQuery`: only
root-level collection-group queries are supported; the `HARD_ASSERT` on a
non-root path is a fatal programming-error precondition, embedded as `none`.
Otherwise a collection query runs against each parent containing the
collection id and the results are aggregated. -/
def LocalDocumentsView.GetDocumentsMatchingCollectionGroupQuery (v : LocalDocumentsView)
    (q : Query) (sinceReadTime : Nat) : Option DocumentMap :=
  if q.path.isEmpty then
    match q.collectionGroup with
    | some collectionId =>
        some
          ((v.indexManager.collectionParents collectionId).foldl
            (fun results parent =>
              let collectionQuery := Query.asCollectionQueryAtPath q (parent ++ [collectionId])
              let collectionResults :=
                LocalDocumentsView.GetDocumentsMatchingCollectionQuery v collectionQuery
                  sinceReadTime
              collectionResults.foldl
                (fun res e => DocumentMap.insert res e.1 e.2) results)
            [])
    | none => none
  else none

/-- `LocalDocumentsView::GetDocumentsMatchingQuery`: dispatch on the query
shape.  The collection-group arm can abort fatally, embedded as `none`. -/
def LocalDocumentsView.GetDocumentsMatchingQuery (v : LocalDocumentsView) (q : Query)
    (sinceReadTime : Nat) : Option DocumentMap :=
  if Query.isDocumentQuery q then
    some (LocalDocumentsView.GetDocumentsMatchingDocumentQuery v q.path)
  else if Query.isCollectionGroupQuery q then
    LocalDocumentsView.GetDocumentsMatchingCollectionGroupQuery v q sinceReadTime
  else some (LocalDocumentsView.GetDocumentsMatchingCollectionQuery v q sinceReadTime)

/-! Association-map lemmas. -/

theorem DocumentMap.erase_sublist (m : DocumentMap) (k : DocumentKey) :
    List.Sublist (DocumentMap.erase m k) m := by
  induction m with
  | nil => exact List.Sublist.refl []
  | cons e rest ih =>
    by_cases h : e.1 = k
    · rw [DocumentMap.erase, if_pos h]
      exact List.Sublist.cons e ih
    · rw [DocumentMap.erase, if_neg h]
      exact List.Sublist.cons₂ e ih

theorem DocumentMap.lookup_erase (m : DocumentMap) (k k' : DocumentKey) :
    DocumentMap.lookup (DocumentMap.erase m k) k' =
      if k = k' then none else DocumentMap.lookup m k' := by
  induction m with
  | nil =>
    simp [DocumentMap.erase, DocumentMap.lookup]
  | cons e rest ih =>
    by_cases h1 : e.1 = k
    · rw [DocumentMap.erase, if_pos h1, ih]
      by_cases h2 : k = k'
      · simp [h2]
      · have h3 : ¬e.1 = k' := by
          rw [h1]
          exact h2
        simp [DocumentMap.lookup, h2, h3]
    · rw [DocumentMap.erase, if_neg h1]
      by_cases h2 : e.1 = k'
      · have h4 : ¬k = k' := fun hk => h1 (hk ▸ h2)
        simp [DocumentMap.lookup, h2, h4]
      · simp only [DocumentMap.lookup, if_neg h2]
        exact ih

theorem DocumentMap.lookup_insert (m : DocumentMap) (k : DocumentKey)
    (d : MutableDocument) (k' : DocumentKey) :
    DocumentMap.lookup (DocumentMap.insert m k d) k' =
      if k = k' then some d else DocumentMap.lookup m k' := by
  by_cases h : k = k' <;>
    simp [DocumentMap.insert, DocumentMap.lookup, h, DocumentMap.lookup_erase]

theorem DocumentMap.lookup_mem (m : DocumentMap) (k : DocumentKey) (d : MutableDocument)
    (h : DocumentMap.lookup m k = some d) : (k, d) ∈ m := by
  induction m with
  | nil => simp [DocumentMap.lookup] at h
  | cons e rest ih =>
    by_cases h1 : e.1 = k
    · rw [DocumentMap.lookup, if_pos h1] at h
      obtain ⟨a, b⟩ := e
      obtain rfl : a = k := h1
      obtain rfl : b = d := Option.some.inj h
      exact List.mem_cons_self _ _
    · rw [DocumentMap.lookup, if_neg h1] at h
      exact List.mem_cons_of_mem _ (ih h)

theorem DocumentMap.mem_erase (m : DocumentMap) (k : DocumentKey)
    (x : DocumentKey × MutableDocument) (h : x ∈ DocumentMap.erase m k) :
    x ∈ m ∧ x.1 ≠ k := by
  induction m with
  | nil => simp [DocumentMap.erase] at h
  | cons e rest ih =>
    by_cases h1 : e.1 = k
    · rw [DocumentMap.erase, if_pos h1] at h
      obtain ⟨hm, hne⟩ := ih h
      exact ⟨List.mem_cons_of_mem _ hm, hne⟩
    · rw [DocumentMap.erase, if_neg h1] at h
      rcases List.mem_cons.mp h with h2 | h2
      · exact ⟨List.mem_cons.mpr (Or.inl h2), h2 ▸ h1⟩
      · obtain ⟨hm, hne⟩ := ih h2
        exact ⟨List.mem_cons_of_mem _ hm, hne⟩

theorem DocumentMap.mem_insert (m : DocumentMap) (k : DocumentKey) (d : MutableDocument)
    (x : DocumentKey × MutableDocument) (h : x ∈ DocumentMap.insert m k d) :
    x = (k, d) ∨ x ∈ m := by
  rcases List.mem_cons.mp h with h1 | h1
  · exact Or.inl h1
  · exact Or.inr (DocumentMap.mem_erase m k x h1).1

theorem DocumentMap.not_mem_keys_erase (m : DocumentMap) (k : DocumentKey) :
    k ∉ (DocumentMap.erase m k).map Prod.fst := by
  intro h
  rcases List.mem_map.mp h with ⟨x, hx, hfst⟩
  exact (DocumentMap.mem_erase m k x hx).2 hfst

theorem DocumentMap.nodupKeys_erase (m : DocumentMap) (k : DocumentKey)
    (h : DocumentMap.NodupKeys m) : DocumentMap.NodupKeys (DocumentMap.erase m k) :=
  List.Nodup.sublist (List.Sublist.map Prod.fst (DocumentMap.erase_sublist m k)) h

theorem DocumentMap.nodupKeys_insert (m : DocumentMap) (k : DocumentKey)
    (d : MutableDocument) (h : DocumentMap.NodupKeys m) :
    DocumentMap.NodupKeys (DocumentMap.insert m k d) := by
  refine List.nodup_cons.mpr ⟨DocumentMap.not_mem_keys_erase m k, ?_⟩
  exact DocumentMap.nodupKeys_erase m k h

theorem DocumentMap.lookup_eq_none (m : DocumentMap) (k : DocumentKey)
    (h : k ∉ m.map Prod.fst) : DocumentMap.lookup m k = none := by
  induction m with
  | nil => rfl
  | cons e rest ih =>
    simp only [List.map_cons, List.mem_cons, not_or] at h
    have h1 : ¬e.1 = k := fun hh => h.1 hh.symm
    rw [DocumentMap.lookup, if_neg h1]
    exact ih h.2

/-- Looking a key up in a map built by tabulating a function over a key
list. -/
theorem DocumentMap.lookup_tabulate (S : List DocumentKey)
    (f : DocumentKey → MutableDocument) (k : DocumentKey) :
    DocumentMap.lookup (S.map (fun k' => (k', f k'))) k =
      if k ∈ S then some (f k) else none := by
  induction S with
  | nil => simp [DocumentMap.lookup]
  | cons a rest ih =>
    by_cases h : a = k
    · subst h
      simp [DocumentMap.lookup]
    · simp [DocumentMap.lookup, h, ih, Ne.symm h]

/-- Mapping each entry's value with a key-dependent function commutes with
lookup. -/
theorem DocumentMap.lookup_mapValues (m : DocumentMap)
    (g : DocumentKey → MutableDocument → MutableDocument) (k : DocumentKey) :
    DocumentMap.lookup (m.map (fun e => (e.1, g e.1 e.2))) k =
      Option.map (g k) (DocumentMap.lookup m k) := by
  induction m with
  | nil => simp [DocumentMap.lookup]
  | cons e rest ih =>
    by_cases h : e.1 = k
    · subst h
      simp [DocumentMap.lookup]
    · simp [DocumentMap.lookup, h, ih]

/-- Looking up in a map rebuilt by inserting every entry, when the source's
keys are unique. -/
theorem DocumentMap.lookup_insertFold (l : DocumentMap) (init : DocumentMap)
    (k : DocumentKey) (hl : DocumentMap.NodupKeys l) :
    DocumentMap.lookup
        (l.foldl (fun res e => DocumentMap.insert res e.1 e.2) init) k =
      match DocumentMap.lookup l k with
      | some d => some d
      | none => DocumentMap.lookup init k := by
  induction l generalizing init with
  | nil => simp [DocumentMap.lookup]
  | cons e rest ih =>
    have hk : e.1 ∉ rest.map Prod.fst := (List.nodup_cons.mp hl).1
    have hrest : DocumentMap.NodupKeys rest := (List.nodup_cons.mp hl).2
    rw [List.foldl_cons, ih _ hrest]
    by_cases h : e.1 = k
    · subst h
      rw [DocumentMap.lookup_eq_none rest e.1 hk, DocumentMap.lookup, if_pos rfl,
        DocumentMap.lookup_insert, if_pos rfl]
    · rw [DocumentMap.lookup, if_neg h]
      cases DocumentMap.lookup rest k with
      | some d => rfl
      | none => rw [DocumentMap.lookup_insert, if_neg h]

theorem DocumentMap.nodupKeys_insertFold (l : DocumentMap) (init : DocumentMap)
    (h : DocumentMap.NodupKeys init) :
    DocumentMap.NodupKeys (l.foldl (fun res e => DocumentMap.insert res e.1 e.2) init) := by
  induction l generalizing init with
  | nil => exact h
  | cons e rest ih => exact ih _ (DocumentMap.nodupKeys_insert _ _ _ h)

theorem DocumentMap.mem_insertFold (l : DocumentMap) (init : DocumentMap)
    (x : DocumentKey × MutableDocument)
    (h : x ∈ l.foldl (fun res e => DocumentMap.insert res e.1 e.2) init) :
    x ∈ l ∨ x ∈ init := by
  induction l generalizing init with
  | nil => exact Or.inr h
  | cons e rest ih =>
    rcases ih _ h with h1 | h1
    · exact Or.inl (List.mem_cons_of_mem _ h1)
    · rcases DocumentMap.mem_insert init e.1 e.2 x h1 with h2 | h2
      · left
        cases e
        simp [h2]
      · exact Or.inr h2

/-! Key-set lemmas. -/

theorem DocumentKeySet.containsKey_iff (s : DocumentKeySet) (k : DocumentKey) :
    DocumentKeySet.containsKey s k = true ↔ k ∈ s := by
  simp [DocumentKeySet.containsKey, List.any_eq_true]

theorem DocumentKeySet.mem_insertKey (s : DocumentKeySet) (k x : DocumentKey) :
    x ∈ DocumentKeySet.insert s k ↔ x ∈ s ∨ x = k := by
  unfold DocumentKeySet.insert
  by_cases h : DocumentKeySet.containsKey s k = true
  · rw [if_pos h]
    have hk := (DocumentKeySet.containsKey_iff s k).mp h
    constructor
    · exact Or.inl
    · rintro (hx | rfl)
      · exact hx
      · exact hk
  · rw [if_neg h]
    simp [List.mem_cons, or_comm]

theorem DocumentKeySet.nodup_insert (s : DocumentKeySet) (k : DocumentKey)
    (h : s.Nodup) : (DocumentKeySet.insert s k).Nodup := by
  unfold DocumentKeySet.insert
  by_cases hc : DocumentKeySet.containsKey s k = true
  · rw [if_pos hc]
    exact h
  · rw [if_neg hc]
    refine List.nodup_cons.mpr ⟨?_, h⟩
    intro hk
    exact hc ((DocumentKeySet.containsKey_iff s k).mpr hk)

/-! Lemmas about the final predicate filter of a collection query. -/

/-- The final-filter fold only erases: every surviving entry comes from the
map it started from. -/
theorem LocalDocumentsView.mem_filterFold (q : Query) (l res : DocumentMap)
    (x : DocumentKey × MutableDocument)
    (h : x ∈ l.foldl
        (fun res e => if Query.Matches q e.2 then res else DocumentMap.erase res e.1) res) :
    x ∈ res := by
  induction l generalizing res with
  | nil => exact h
  | cons e rest ih =>
    rw [List.foldl_cons] at h
    have h2 := ih _ h
    by_cases hm : Query.Matches q e.2
    · rwa [if_pos hm] at h2
    · rw [if_neg hm] at h2
      exact (DocumentMap.mem_erase _ _ _ h2).1

/-- Once the iteration list contains an entry for `k` that fails the
predicate, no entry for `k` survives the final-filter fold. -/
theorem LocalDocumentsView.not_mem_filterFold (q : Query) (l : DocumentMap)
    (k : DocumentKey) (d : MutableDocument) (hf : Query.Matches q d = false) :
    ∀ (res : DocumentMap) (d' : MutableDocument), (k, d) ∈ l →
      (k, d') ∉ l.foldl
        (fun res e => if Query.Matches q e.2 then res else DocumentMap.erase res e.1) res := by
  induction l with
  | nil =>
    intro res d' hw
    simp at hw
  | cons e rest ih =>
    intro res d' hw hmem
    rw [List.foldl_cons] at hmem
    rcases List.mem_cons.mp hw with he | he
    · have h2 := LocalDocumentsView.mem_filterFold q rest _ _ hmem
      have he2 : ¬Query.Matches q e.2 = true := by
        rw [← he]
        simp [hf]
      rw [if_neg he2] at h2
      have h3 := (DocumentMap.mem_erase _ _ _ h2).2
      rw [← he] at h3
      exact h3 rfl
    · exact ih _ d' he hmem

/-- Every entry of the filtered result comes from the unfiltered result and
matches the query. -/
theorem LocalDocumentsView.mem_filterByQuery (q : Query) (results : DocumentMap)
    (k : DocumentKey) (d : MutableDocument)
    (h : (k, d) ∈ LocalDocumentsView.filterByQuery q results) :
    (k, d) ∈ results ∧ Query.Matches q d = true := by
  simp only [LocalDocumentsView.filterByQuery] at h
  have h1 : (k, d) ∈ results := LocalDocumentsView.mem_filterFold q results results _ h
  refine ⟨h1, ?_⟩
  by_contra hf
  have hf' : Query.Matches q d = false := by
    simpa using hf
  exact LocalDocumentsView.not_mem_filterFold q results k d hf' results d h1 h

/-- Every entry of a collection query result satisfies the query's full
predicate. -/
theorem LocalDocumentsView.mem_collectionQuery_matches (v : LocalDocumentsView)
    (q : Query) (sinceReadTime : Nat) (k : DocumentKey) (d : MutableDocument)
    (h : (k, d) ∈ LocalDocumentsView.GetDocumentsMatchingCollectionQuery v q sinceReadTime) :
    Query.Matches q d = true := by
  simp only [LocalDocumentsView.GetDocumentsMatchingCollectionQuery] at h
  exact (LocalDocumentsView.mem_filterByQuery q _ k d h).2

/-- Only a found document can match a query. -/
theorem Query.matches_found (q : Query) (d : MutableDocument)
    (h : Query.Matches q d = true) : d.isFoundDocument = true := by
  simp only [Query.Matches, Bool.and_eq_true] at h
  exact h.1.1.1

/-! Key-set fold lemmas. -/

theorem DocumentKeySet.mem_keyFold {α : Type} (f : α → DocumentKey) (l : List α)
    (s : DocumentKeySet) (x : DocumentKey) :
    x ∈ l.foldl (fun s a => DocumentKeySet.insert s (f a)) s ↔ x ∈ s ∨ x ∈ l.map f := by
  induction l generalizing s with
  | nil => simp
  | cons a rest ih =>
    rw [List.foldl_cons, ih, DocumentKeySet.mem_insertKey]
    simp only [List.map_cons, List.mem_cons]
    tauto

/-- Two key sets with the same members are interchangeable in the
mutation-queue filter. -/
theorem MutationQueue.affectingKeys_congr (mq : MutationQueue) (s1 s2 : DocumentKeySet)
    (h : ∀ y, y ∈ s1 ↔ y ∈ s2) :
    MutationQueue.AllMutationBatchesAffectingDocumentKeys mq s1 =
      MutationQueue.AllMutationBatchesAffectingDocumentKeys mq s2 := by
  unfold MutationQueue.AllMutationBatchesAffectingDocumentKeys
  refine List.filter_congr ?_
  intro b _
  have hc : ∀ y, DocumentKeySet.containsKey s1 y = DocumentKeySet.containsKey s2 y := by
    intro y
    rw [Bool.eq_iff_iff, DocumentKeySet.containsKey_iff, DocumentKeySet.containsKey_iff]
    exact h y
  congr 1
  funext m
  rw [hc m.key]

/-- Sorted-by-batch-id order is preserved by filtering. -/
theorem BatchesSortedById.filter (l : List MutationBatch) (p : MutationBatch → Bool)
    (h : BatchesSortedById l) : BatchesSortedById (l.filter p) :=
  List.Pairwise.sublist (List.filter_sublist l) h

/-! Concrete fixtures used by witnesses. -/

def exKeyA : DocumentKey := ["a", "b"]

def exDocA : MutableDocument := MutableDocument.foundDocument exKeyA 42 [("a", 1), ("b", 2)]

def exCacheA : RemoteDocumentCache := RemoteDocumentCache.Add RemoteDocumentCache.empty exDocA 42

def exSetMutA : Mutation := ⟨exKeyA, MutationOp.set [("a", 5)], Precondition.none⟩

def exFailMutA : Mutation :=
  ⟨exKeyA, MutationOp.patch [("c", 7)] ["c"], Precondition.existsDoc false⟩

def exBatchA : MutationBatch := ⟨1, 100, [exSetMutA]⟩

def exQueueA : MutationQueue := ⟨[exBatchA]⟩

def exIndexA : IndexManager := ⟨fun _ => []⟩

def exViewA : LocalDocumentsView := ⟨exCacheA, exQueueA, exIndexA⟩

/-! Claim theorems. -/

/-- C2: for every key, `GetDocument(key)` equals the base document fetched by
`Get(key)` from the remote document cache with each affecting batch's
mutations applied in batch-id order (the affecting batches inherit the
queue's non-decreasing batch-id order), and a mutation whose precondition
fails leaves the document unchanged — the apply functions are total, so no
error is ever propagated. -/
theorem getDocument_folds_affecting_batches (v : LocalDocumentsView) (key : DocumentKey)
    (hq : BatchesSortedById v.queue.batches) :
    BatchesSortedById (MutationQueue.AllMutationBatchesAffectingDocumentKey v.queue key) ∧
    LocalDocumentsView.GetDocument v key =
      (MutationQueue.AllMutationBatchesAffectingDocumentKey v.queue key).foldl
        (fun d b => MutationBatch.applyToLocalDocument b d key)
        (RemoteDocumentCache.Get v.cache key) ∧
    ∀ (m : Mutation) (d : MutableDocument) (t : Nat),
      Precondition.holdsFor m.precondition d = false → Mutation.applyToDocument m d t = d := by
  refine ⟨BatchesSortedById.filter _ _ hq, rfl, ?_⟩
  intro m d t h
  unfold Mutation.applyToDocument
  rw [h]
  simp

/-- Witness for C2: a concrete view where the affecting batch's set mutation
is folded into the result, and a concrete mutation whose must-not-exist
precondition fails against a found base document and is a no-op. -/
theorem getDocument_folds_affecting_batches_witness :
    LocalDocumentsView.GetDocument exViewA exKeyA =
      (MutationQueue.AllMutationBatchesAffectingDocumentKey exViewA.queue exKeyA).foldl
        (fun d b => MutationBatch.applyToLocalDocument b d exKeyA)
        (RemoteDocumentCache.Get exViewA.cache exKeyA) ∧
    Mutation.applyToDocument exFailMutA exDocA 100 = exDocA := by
  have h := getDocument_folds_affecting_batches exViewA exKeyA (by decide)
  exact ⟨h.2.1, h.2.2 exFailMutA exDocA 100 (by decide)⟩

/-- C8: for a collection-group query, `GetDocumentsMatchingQuery` hits the
fatal programming-error precondition (embedded as `none`) exactly when the
query path is non-empty; for a root-level collection-group query the fatal
branch is unreachable and a result map is always produced. -/
theorem collectionGroupQuery_root_only (v : LocalDocumentsView) (q : Query)
    (sinceReadTime : Nat) (hcg : Query.isCollectionGroupQuery q = true) :
    (q.path ≠ [] → LocalDocumentsView.GetDocumentsMatchingQuery v q sinceReadTime = none) ∧
    (q.path = [] →
      (LocalDocumentsView.GetDocumentsMatchingQuery v q sinceReadTime).isSome = true) := by
  obtain ⟨cid, hcid⟩ := Option.isSome_iff_exists.mp hcg
  have hdoc : Query.isDocumentQuery q = false := by
    simp [Query.isDocumentQuery, hcid]
  constructor
  · intro hp
    simp only [LocalDocumentsView.GetDocumentsMatchingQuery, hdoc, Bool.false_eq_true,
      if_false, hcg, if_true]
    simp [LocalDocumentsView.GetDocumentsMatchingCollectionGroupQuery, hp]
  · intro hp
    simp only [LocalDocumentsView.GetDocumentsMatchingQuery, hdoc, Bool.false_eq_true,
      if_false, hcg, if_true]
    simp [LocalDocumentsView.GetDocumentsMatchingCollectionGroupQuery, hp, hcid]

def exCGQuery : Query := ⟨["x", "y"], some "c", [], []⟩

def exCGQueryRoot : Query := ⟨[], some "c", [], []⟩

/-- Witness for C8: a concrete non-root collection-group query aborts and a
concrete root-level one produces a result. -/
theorem collectionGroupQuery_root_only_witness :
    LocalDocumentsView.GetDocumentsMatchingQuery exViewA exCGQuery 0 = none ∧
    (LocalDocumentsView.GetDocumentsMatchingQuery exViewA exCGQueryRoot 0).isSome = true := by
  refine ⟨?_, ?_⟩
  · exact (collectionGroupQuery_root_only exViewA exCGQuery 0 (by decide)).1 (by decide)
  · exact (collectionGroupQuery_root_only exViewA exCGQueryRoot 0 (by decide)).2 rfl

/-- C7: `Get` on a key with no cache entry returns the `Invalid` variant and
`Remove` on such a key leaves the cache unchanged (a no-op, never an error);
`Remove` on a present key makes a subsequent `Get` return the
`UnknownDocument` variant. -/
theorem remoteCache_get_remove_semantics (c : RemoteDocumentCache) (k : DocumentKey) :
    (RemoteDocumentCache.find c k = none →
      RemoteDocumentCache.Get c k = MutableDocument.invalidDocument k ∧
        RemoteDocumentCache.Remove c k = c) ∧
    ∀ e : CacheEntry, RemoteDocumentCache.find c k = some e →
      MutableDocument.isUnknownDocument
        (RemoteDocumentCache.Get (RemoteDocumentCache.Remove c k) k) = true := by
  constructor
  · intro h
    constructor
    · unfold RemoteDocumentCache.Get
      rw [h]
    · unfold RemoteDocumentCache.Remove
      rw [h]
  · intro e h
    unfold RemoteDocumentCache.Remove
    rw [h]
    simp [RemoteDocumentCache.Get, RemoteDocumentCache.Add, RemoteDocumentCache.find,
      MutableDocument.unknownDocument, MutableDocument.isUnknownDocument, List.find?]

/-- Witness for C7: the empty cache and a concrete populated cache. -/
theorem remoteCache_get_remove_semantics_witness :
    RemoteDocumentCache.Get RemoteDocumentCache.empty ["a", "b"] =
      MutableDocument.invalidDocument ["a", "b"] ∧
    RemoteDocumentCache.Remove RemoteDocumentCache.empty ["a", "b"] =
      RemoteDocumentCache.empty ∧
    MutableDocument.isUnknownDocument
      (RemoteDocumentCache.Get (RemoteDocumentCache.Remove exCacheA exKeyA) exKeyA) = true := by
  have h1 := remoteCache_get_remove_semantics RemoteDocumentCache.empty ["a", "b"]
  have h2 := remoteCache_get_remove_semantics exCacheA exKeyA
  exact ⟨(h1.1 rfl).1, (h1.1 rfl).2, h2.2 ⟨exKeyA, exDocA, 42⟩ (by decide)⟩

def exCacheC6 : RemoteDocumentCache :=
  ⟨[⟨["b", "old"], MutableDocument.foundDocument ["b", "old"] 1 [("a", 1)], 2⟩,
    ⟨["b", "new"], MutableDocument.foundDocument ["b", "new"] 2 [("a", 1)], 1⟩,
    ⟨["b", "deep", "z", "1"], MutableDocument.foundDocument ["b", "deep", "z", "1"] 1 [], 5⟩]⟩

def exQueryB : Query := ⟨["b"], none, [], []⟩

def exViewC5 : LocalDocumentsView := ⟨exCacheC6, ⟨[]⟩, exIndexA⟩

/-- C5: after the mutation fold, a collection query re-evaluates the query's
full predicate and erases every failing document, so every entry of the
returned map satisfies the predicate. -/
theorem collectionQuery_results_match_predicate (v : LocalDocumentsView) (q : Query)
    (sinceReadTime : Nat) (k : DocumentKey) (d : MutableDocument)
    (h : (k, d) ∈ LocalDocumentsView.GetDocumentsMatchingCollectionQuery v q sinceReadTime) :
    Query.Matches q d = true :=
  LocalDocumentsView.mem_collectionQuery_matches v q sinceReadTime k d h

/-- Witness for C5: a concrete collection query result entry satisfying the
query predicate. -/
theorem collectionQuery_results_match_predicate_witness :
    Query.Matches exQueryB (MutableDocument.foundDocument ["b", "old"] 1 [("a", 1)]) = true :=
  collectionQuery_results_match_predicate exViewC5 exQueryB 0 ["b", "old"]
    (MutableDocument.foundDocument ["b", "old"] 1 [("a", 1)]) (by decide)

/-- Helper for the collection-group arm of C10: every entry aggregated from
the per-parent collection queries is a found document. -/
theorem LocalDocumentsView.mem_cgFold_found (v : LocalDocumentsView) (q : Query)
    (cid : String) (sinceReadTime : Nat) (parents : List ResourcePath)
    (init : DocumentMap)
    (hinit : ∀ x ∈ init, MutableDocument.isFoundDocument x.2 = true)
    (k : DocumentKey) (d : MutableDocument)
    (h : (k, d) ∈ parents.foldl
        (fun results parent =>
          (LocalDocumentsView.GetDocumentsMatchingCollectionQuery v
              (Query.asCollectionQueryAtPath q (parent ++ [cid])) sinceReadTime).foldl
            (fun res e => DocumentMap.insert res e.1 e.2) results)
        init) :
    MutableDocument.isFoundDocument d = true := by
  induction parents generalizing init with
  | nil => exact hinit (k, d) h
  | cons p rest ih =>
    rw [List.foldl_cons] at h
    refine ih _ ?_ h
    intro x hx
    obtain ⟨k', d'⟩ := x
    rcases DocumentMap.mem_insertFold _ _ _ hx with h1 | h1
    · exact Query.matches_found _ _
        (LocalDocumentsView.mem_collectionQuery_matches v _ sinceReadTime k' d' h1)
    · exact hinit (k', d') h1

/-- C10: for every query shape that produces a result map, every entry of
the map is a found document — `Invalid`, `NoDocument` and `UnknownDocument`
never appear as query-result entries. -/
theorem queryResults_only_found_documents (v : LocalDocumentsView) (q : Query)
    (sinceReadTime : Nat) (m : DocumentMap) (k : DocumentKey) (d : MutableDocument)
    (h1 : LocalDocumentsView.GetDocumentsMatchingQuery v q sinceReadTime = some m)
    (h2 : (k, d) ∈ m) : MutableDocument.isFoundDocument d = true := by
  unfold LocalDocumentsView.GetDocumentsMatchingQuery at h1
  split_ifs at h1 with hdoc hcg
  · obtain rfl := Option.some.inj h1
    simp only [LocalDocumentsView.GetDocumentsMatchingDocumentQuery] at h2
    by_cases hf : MutableDocument.isFoundDocument (LocalDocumentsView.GetDocument v q.path) = true
    · rw [if_pos hf] at h2
      rcases DocumentMap.mem_insert _ _ _ _ h2 with he | he
      · have hd : d = LocalDocumentsView.GetDocument v q.path := congrArg Prod.snd he
        rw [hd]
        exact hf
      · simp at he
    · rw [if_neg hf] at h2
      simp at h2
  · unfold LocalDocumentsView.GetDocumentsMatchingCollectionGroupQuery at h1
    by_cases hroot : q.path.isEmpty = true
    · rw [if_pos hroot] at h1
      cases hcgm : q.collectionGroup with
      | none =>
        rw [hcgm] at h1
        cases h1
      | some cid =>
        rw [hcgm] at h1
        obtain rfl := Option.some.inj h1
        exact LocalDocumentsView.mem_cgFold_found v q cid sinceReadTime _ []
          (fun x hx => absurd hx (List.not_mem_nil x)) k d h2
    · rw [if_neg hroot] at h1
      cases h1
  · obtain rfl := Option.some.inj h1
    exact Query.matches_found q d
      (LocalDocumentsView.mem_collectionQuery_matches v q sinceReadTime k d h2)

def exDocQueryA : Query := ⟨["a", "b"], none, [], []⟩

def exC10Doc : MutableDocument := ⟨exKeyA, DocumentType.found, 42, [("a", 5)], true⟩

/-- Witness for C10: a concrete document query whose single result entry is a
found document. -/
theorem queryResults_only_found_documents_witness :
    MutableDocument.isFoundDocument exC10Doc = true :=
  queryResults_only_found_documents exViewA exDocQueryA 0 [(exKeyA, exC10Doc)] exKeyA exC10Doc
    (by decide) (by decide)

/-- Keys absent from the scanned entries are absent from the path-scan
result. -/
theorem RemoteDocumentCache.getMatching_lookup_none (entries : List CacheEntry)
    (p : CacheEntry → Bool) (k : DocumentKey)
    (hk : k ∉ entries.map CacheEntry.key) :
    DocumentMap.lookup ((entries.filter p).map (fun e => (e.key, e.doc))) k = none := by
  apply DocumentMap.lookup_eq_none
  intro hmem
  apply hk
  have hcomp : ((entries.filter p).map (fun e => (e.key, e.doc))).map Prod.fst =
      (entries.filter p).map CacheEntry.key := by
    rw [List.map_map]
    rfl
  rw [hcomp] at hmem
  rcases List.mem_map.mp hmem with ⟨x, hx, hfst⟩
  exact hfst ▸ List.mem_map_of_mem CacheEntry.key (List.mem_of_mem_filter hx)

/-- Lookup characterization of the path scan over a key-unique entry list. -/
theorem RemoteDocumentCache.getMatching_lookup_core (entries : List CacheEntry)
    (q : Query) (sinceReadTime : Nat)
    (hwf : (entries.map CacheEntry.key).Nodup) (k : DocumentKey) :
    DocumentMap.lookup
        ((entries.filter
            (fun e => ResourcePath.isImmediateParentOf q.path e.key &&
              decide (sinceReadTime < e.readTime))).map (fun e => (e.key, e.doc))) k =
      match entries.find? (fun e => decide (e.key = k)) with
      | some e =>
        if ResourcePath.isImmediateParentOf q.path e.key && decide (sinceReadTime < e.readTime)
        then some e.doc else none
      | none => none := by
  induction entries with
  | nil => rfl
  | cons e rest ih =>
    have hk : e.key ∉ rest.map CacheEntry.key := (List.nodup_cons.mp hwf).1
    have hrest := (List.nodup_cons.mp hwf).2
    by_cases hek : e.key = k
    · subst hek
      rw [List.find?_cons_of_pos _ (by simp)]
      cases hp : (ResourcePath.isImmediateParentOf q.path e.key &&
          decide (sinceReadTime < e.readTime)) with
      | true => simp [List.filter_cons, hp, DocumentMap.lookup]
      | false =>
        simp only [List.filter_cons, hp, Bool.false_eq_true, if_false]
        rw [RemoteDocumentCache.getMatching_lookup_none rest _ e.key hk]
    · rw [List.find?_cons_of_neg _ (by simp [hek])]
      cases hp : (ResourcePath.isImmediateParentOf q.path e.key &&
          decide (sinceReadTime < e.readTime)) with
      | true =>
        simp only [List.filter_cons, hp, if_true, List.map_cons]
        rw [DocumentMap.lookup, if_neg hek]
        exact ih hrest
      | false =>
        simp only [List.filter_cons, hp, Bool.false_eq_true, if_false]
        exact ih hrest

/-- C6: `GetMatching(query, sinceReadTime)` on a well-formed cache contains a
key exactly when the cache holds an entry for it whose key is an immediate
child of the query path (nested sub-collection documents excluded) and whose
read time — not its update time — strictly exceeds `sinceReadTime`; a
`sinceReadTime` of the epoch matches every entry under the path when all
stored read times are positive. -/
theorem getMatching_exactly_read_time_filtered (c : RemoteDocumentCache) (q : Query)
    (sinceReadTime : Nat) (hwf : RemoteDocumentCache.WF c) :
    (∀ k, DocumentMap.lookup (RemoteDocumentCache.GetMatching c q sinceReadTime) k =
      match RemoteDocumentCache.find c k with
      | some e =>
        if ResourcePath.isImmediateParentOf q.path e.key && decide (sinceReadTime < e.readTime)
        then some e.doc else none
      | none => none) ∧
    ((∀ e ∈ c.entries, 0 < e.readTime) →
      ∀ k, DocumentMap.lookup (RemoteDocumentCache.GetMatching c q 0) k =
        match RemoteDocumentCache.find c k with
        | some e =>
          if ResourcePath.isImmediateParentOf q.path e.key then some e.doc else none
        | none => none) := by
  constructor
  · intro k
    exact RemoteDocumentCache.getMatching_lookup_core c.entries q sinceReadTime hwf k
  · intro hpos k
    have h0 : DocumentMap.lookup (RemoteDocumentCache.GetMatching c q 0) k =
        match c.entries.find? (fun e => decide (e.key = k)) with
        | some e =>
          if ResourcePath.isImmediateParentOf q.path e.key && decide (0 < e.readTime)
          then some e.doc else none
        | none => none :=
      RemoteDocumentCache.getMatching_lookup_core c.entries q 0 hwf k
    rw [h0]
    cases hfind : c.entries.find? (fun e => decide (e.key = k)) with
    | none => simp [RemoteDocumentCache.find, hfind]
    | some e =>
      have he : e ∈ c.entries := List.mem_of_find?_eq_some hfind
      have hrt : decide (0 < e.readTime) = true := by simp [hpos e he]
      simp [RemoteDocumentCache.find, hfind, hrt]

/-- Witness for C6: the read-time-versus-update-time cache of the tests; the
entry with the newer read time (but older update time) is returned, the
other is not, and a nested sub-collection document is excluded even at the
epoch. -/
theorem getMatching_exactly_read_time_filtered_witness :
    DocumentMap.lookup (RemoteDocumentCache.GetMatching exCacheC6 exQueryB 1) ["b", "old"] =
      some (MutableDocument.foundDocument ["b", "old"] 1 [("a", 1)]) ∧
    DocumentMap.lookup (RemoteDocumentCache.GetMatching exCacheC6 exQueryB 1) ["b", "new"] =
      none ∧
    DocumentMap.lookup (RemoteDocumentCache.GetMatching exCacheC6 exQueryB 0)
      ["b", "deep", "z", "1"] = none := by
  have h := getMatching_exactly_read_time_filtered exCacheC6 exQueryB 1 (by decide)
  have h0 := getMatching_exactly_read_time_filtered exCacheC6 exQueryB 0 (by decide)
  refine ⟨(h.1 ["b", "old"]).trans (by decide), (h.1 ["b", "new"]).trans (by decide),
    ((h0.2 (by decide)) ["b", "deep", "z", "1"]).trans (by decide)⟩

/-- C4: in the mutation-folding loop of a collection query, a mutation whose
key is not an immediate child of the query path is skipped; otherwise the
mutation is applied to the current working document for its key, the entry is
replaced when the result is a found document and erased otherwise; and the
collection query is exactly this fold, batch by batch in the order the queue
returns, between the base-document step and the final filter. -/
theorem collectionQuery_mutation_fold_step (q : Query) (t : Nat)
    (results : DocumentMap) (m : Mutation) :
    (ResourcePath.isImmediateParentOf q.path m.key = false →
      LocalDocumentsView.applyMutationStep q t results m = results) ∧
    (ResourcePath.isImmediateParentOf q.path m.key = true →
      DocumentMap.lookup (LocalDocumentsView.applyMutationStep q t results m) m.key =
        (if (Mutation.applyToLocalView m (DocumentMap.lookup results m.key) t).isFoundDocument
         then some (Mutation.applyToLocalView m (DocumentMap.lookup results m.key) t)
         else none) ∧
      ∀ k, k ≠ m.key →
        DocumentMap.lookup (LocalDocumentsView.applyMutationStep q t results m) k =
          DocumentMap.lookup results k) ∧
    ∀ (v : LocalDocumentsView) (sinceReadTime : Nat),
      LocalDocumentsView.GetDocumentsMatchingCollectionQuery v q sinceReadTime =
        LocalDocumentsView.filterByQuery q
          ((MutationQueue.AllMutationBatchesAffectingQuery v.queue q).foldl
            (fun results batch =>
              batch.mutations.foldl
                (LocalDocumentsView.applyMutationStep q batch.localWriteTime) results)
            (LocalDocumentsView.AddMissingBaseDocuments v
              (MutationQueue.AllMutationBatchesAffectingQuery v.queue q)
              (RemoteDocumentCache.GetMatching v.cache q sinceReadTime))) := by
  refine ⟨?_, ?_, fun v s => rfl⟩
  · intro h
    simp [LocalDocumentsView.applyMutationStep, h]
  · intro h
    simp only [LocalDocumentsView.applyMutationStep, h, if_true]
    constructor
    · cases hf : (Mutation.applyToLocalView m (DocumentMap.lookup results m.key) t).isFoundDocument with
      | true => simp [hf, DocumentMap.lookup_insert]
      | false => simp [hf, DocumentMap.lookup_erase]
    · intro k hk
      have hk2 : ¬m.key = k := fun hh => hk hh.symm
      cases hf : (Mutation.applyToLocalView m (DocumentMap.lookup results m.key) t).isFoundDocument with
      | true => simp [hf, DocumentMap.lookup_insert, hk2]
      | false => simp [hf, DocumentMap.lookup_erase, hk2]

def exDocB1 : MutableDocument := MutableDocument.foundDocument ["b", "1"] 7 [("a", 1)]

def exResC4 : DocumentMap := [(["b", "1"], exDocB1)]

def exDelMutC4 : Mutation := ⟨["b", "1"], MutationOp.delete, Precondition.none⟩

def exOtherMutC4 : Mutation := ⟨["c", "9"], MutationOp.set [], Precondition.none⟩

/-- Witness for C4: a mutation outside the collection is skipped, and a
delete mutation on a present working document erases its entry. -/
theorem collectionQuery_mutation_fold_step_witness :
    LocalDocumentsView.applyMutationStep exQueryB 7 exResC4 exOtherMutC4 = exResC4 ∧
    DocumentMap.lookup (LocalDocumentsView.applyMutationStep exQueryB 7 exResC4 exDelMutC4)
      ["b", "1"] = none := by
  have h1 := collectionQuery_mutation_fold_step exQueryB 7 exResC4 exOtherMutC4
  have h2 := collectionQuery_mutation_fold_step exQueryB 7 exResC4 exDelMutC4
  refine ⟨h1.1 (by decide), ?_⟩
  have h3 := (h2.2.1 (by decide)).1
  exact h3.trans (by decide)

/-- Looking a key up in the local view of a tabulated document map: each
requested key is bound to the cached base document with the batches folded
onto it. -/
theorem LocalDocumentsView.getDocuments_lookup_aux (B : List MutationBatch)
    (cache : RemoteDocumentCache) (keys : DocumentKeySet) (hkeys : keys.Nodup)
    (k : DocumentKey) :
    DocumentMap.lookup
        ((LocalDocumentsView.ApplyLocalMutationsToDocuments
            (RemoteDocumentCache.GetAll cache keys) B).foldl
          (fun results e => DocumentMap.insert results e.1 e.2) []) k =
      if k ∈ keys then
        some (B.foldl (fun d b => MutationBatch.applyToLocalDocument b d k)
          (RemoteDocumentCache.Get cache k))
      else none := by
  have hfst2 : (LocalDocumentsView.ApplyLocalMutationsToDocuments
      (RemoteDocumentCache.GetAll cache keys) B).map Prod.fst = keys := by
    unfold LocalDocumentsView.ApplyLocalMutationsToDocuments RemoteDocumentCache.GetAll
    rw [List.map_map, List.map_map]
    exact List.map_id keys
  have hnodup2 : DocumentMap.NodupKeys (LocalDocumentsView.ApplyLocalMutationsToDocuments
      (RemoteDocumentCache.GetAll cache keys) B) := by
    unfold DocumentMap.NodupKeys
    rw [hfst2]
    exact hkeys
  rw [DocumentMap.lookup_insertFold _ [] k hnodup2]
  have hl2 : DocumentMap.lookup (LocalDocumentsView.ApplyLocalMutationsToDocuments
      (RemoteDocumentCache.GetAll cache keys) B) k =
      Option.map
        (fun doc => B.foldl (fun d b => MutationBatch.applyToLocalDocument b d k) doc)
        (DocumentMap.lookup (RemoteDocumentCache.GetAll cache keys) k) :=
    DocumentMap.lookup_mapValues (RemoteDocumentCache.GetAll cache keys)
      (fun key doc => B.foldl (fun d b => MutationBatch.applyToLocalDocument b d key) doc) k
  have htab : DocumentMap.lookup (RemoteDocumentCache.GetAll cache keys) k =
      if k ∈ keys then some (RemoteDocumentCache.Get cache k) else none :=
    DocumentMap.lookup_tabulate keys (fun key => RemoteDocumentCache.Get cache key) k
  rw [hl2, htab]
  by_cases hmem : k ∈ keys
  · simp [hmem]
  · simp [hmem, DocumentMap.lookup]

/-- C1: `GetDocuments(keys)` returns a map with exactly one entry per
requested key (key-unique, containing precisely the requested keys), and
each entry is the key's base document from the remote document cache with
the union of batches affecting the key set folded on in batch-id order (the
affecting list inherits the queue's non-decreasing batch-id order). -/
theorem getDocuments_one_entry_per_key_folded (v : LocalDocumentsView)
    (keys : DocumentKeySet) (hkeys : keys.Nodup) (hq : BatchesSortedById v.queue.batches) :
    BatchesSortedById (MutationQueue.AllMutationBatchesAffectingDocumentKeys v.queue keys) ∧
    DocumentMap.NodupKeys (LocalDocumentsView.GetDocuments v keys) ∧
    ∀ k, DocumentMap.lookup (LocalDocumentsView.GetDocuments v keys) k =
      if k ∈ keys then
        some ((MutationQueue.AllMutationBatchesAffectingDocumentKeys v.queue keys).foldl
          (fun d b => MutationBatch.applyToLocalDocument b d k)
          (RemoteDocumentCache.Get v.cache k))
      else none := by
  have hfst : (RemoteDocumentCache.GetAll v.cache keys).map Prod.fst = keys := by
    unfold RemoteDocumentCache.GetAll
    rw [List.map_map]
    exact List.map_id keys
  have hmemAll : ∀ y, y ∈ ((RemoteDocumentCache.GetAll v.cache keys).foldl
      (fun s e => DocumentKeySet.insert s e.1) []) ↔ y ∈ keys := by
    intro y
    rw [DocumentKeySet.mem_keyFold Prod.fst, hfst]
    simp
  have hbatches : MutationQueue.AllMutationBatchesAffectingDocumentKeys v.queue
      ((RemoteDocumentCache.GetAll v.cache keys).foldl
        (fun s e => DocumentKeySet.insert s e.1) []) =
      MutationQueue.AllMutationBatchesAffectingDocumentKeys v.queue keys :=
    MutationQueue.affectingKeys_congr v.queue _ _ hmemAll
  have hget : LocalDocumentsView.GetDocuments v keys =
      (LocalDocumentsView.ApplyLocalMutationsToDocuments
        (RemoteDocumentCache.GetAll v.cache keys)
        (MutationQueue.AllMutationBatchesAffectingDocumentKeys v.queue
          ((RemoteDocumentCache.GetAll v.cache keys).foldl
            (fun s e => DocumentKeySet.insert s e.1) []))).foldl
        (fun results e => DocumentMap.insert results e.1 e.2) [] := rfl
  rw [hget, hbatches]
  refine ⟨BatchesSortedById.filter _ _ hq, ?_, ?_⟩
  · exact DocumentMap.nodupKeys_insertFold _ [] List.nodup_nil
  · intro k
    exact LocalDocumentsView.getDocuments_lookup_aux _ v.cache keys hkeys k

/-- Witness for C1: a two-key request against a concrete view; the mutated
key carries the folded document, the untouched never-cached key carries the
invalid base, and an unrequested key is absent. -/
theorem getDocuments_one_entry_per_key_folded_witness :
    DocumentMap.lookup (LocalDocumentsView.GetDocuments exViewA [exKeyA, ["c", "d"]]) exKeyA =
      some exC10Doc ∧
    DocumentMap.lookup (LocalDocumentsView.GetDocuments exViewA [exKeyA, ["c", "d"]])
      ["c", "d"] = some (MutableDocument.invalidDocument ["c", "d"]) ∧
    DocumentMap.lookup (LocalDocumentsView.GetDocuments exViewA [exKeyA, ["c", "d"]])
      ["x"] = none := by
  have h := getDocuments_one_entry_per_key_folded exViewA [exKeyA, ["c", "d"]]
    (by decide) (by decide)
  exact ⟨(h.2.2 exKeyA).trans (by decide), (h.2.2 ["c", "d"]).trans (by decide),
    (h.2.2 ["x"]).trans (by decide)⟩

/-! Lemmas about `AddMissingBaseDocuments` (C3). -/

/-- The per-mutation key-collection fold only grows the key set. -/
theorem LocalDocumentsView.missingPatchKeys_mono_inner (existingDocs : DocumentMap)
    (muts : List Mutation) (s : DocumentKeySet) (x : DocumentKey) (hx : x ∈ s) :
    x ∈ muts.foldl
      (fun s m =>
        if m.isPatch && !(DocumentMap.containsKey existingDocs m.key) then
          DocumentKeySet.insert s m.key
        else s) s := by
  induction muts generalizing s with
  | nil => exact hx
  | cons m rest ih =>
    rw [List.foldl_cons]
    apply ih
    by_cases h : (m.isPatch && !(DocumentMap.containsKey existingDocs m.key)) = true
    · rw [if_pos h]
      exact (DocumentKeySet.mem_insertKey _ _ _).mpr (Or.inl hx)
    · rwa [if_neg h]

/-- A patch mutation on a key absent from the existing map contributes its
key to the per-mutation fold. -/
theorem LocalDocumentsView.missingPatchKeys_mem_inner (existingDocs : DocumentMap)
    (mu : Mutation)
    (hc : (mu.isPatch && !(DocumentMap.containsKey existingDocs mu.key)) = true) :
    ∀ (muts : List Mutation) (s : DocumentKeySet), mu ∈ muts →
      mu.key ∈ muts.foldl
        (fun s m =>
          if m.isPatch && !(DocumentMap.containsKey existingDocs m.key) then
            DocumentKeySet.insert s m.key
          else s) s := by
  intro muts
  induction muts with
  | nil =>
    intro s h
    cases h
  | cons m rest ih =>
    intro s hmu
    rw [List.foldl_cons]
    rcases List.mem_cons.mp hmu with rfl | h2
    · apply LocalDocumentsView.missingPatchKeys_mono_inner
      rw [if_pos hc]
      exact (DocumentKeySet.mem_insertKey _ _ _).mpr (Or.inr rfl)
    · exact ih _ h2

/-- The per-batch key-collection fold only grows the key set. -/
theorem LocalDocumentsView.missingPatchKeys_mono_outer (existingDocs : DocumentMap)
    (x : DocumentKey) :
    ∀ (batches : List MutationBatch) (s : DocumentKeySet), x ∈ s →
      x ∈ batches.foldl
        (fun s b =>
          b.mutations.foldl
            (fun s m =>
              if m.isPatch && !(DocumentMap.containsKey existingDocs m.key) then
                DocumentKeySet.insert s m.key
              else s) s) s := by
  intro batches
  induction batches with
  | nil => exact fun s hx => hx
  | cons b rest ih =>
    intro s hx
    rw [List.foldl_cons]
    exact ih _ (LocalDocumentsView.missingPatchKeys_mono_inner existingDocs b.mutations s x hx)

/-- A patch mutation on a missing key, contained in one of the batches,
contributes its key to `missingPatchKeys`. -/
theorem LocalDocumentsView.missingPatchKeys_mem (existingDocs : DocumentMap)
    (mu : Mutation)
    (hc : (mu.isPatch && !(DocumentMap.containsKey existingDocs mu.key)) = true) :
    ∀ (batches : List MutationBatch) (s : DocumentKeySet),
      (∃ b ∈ batches, mu ∈ b.mutations) →
      mu.key ∈ batches.foldl
        (fun s b =>
          b.mutations.foldl
            (fun s m =>
              if m.isPatch && !(DocumentMap.containsKey existingDocs m.key) then
                DocumentKeySet.insert s m.key
              else s) s) s := by
  intro batches
  induction batches with
  | nil =>
    intro s h
    obtain ⟨b, hb, _⟩ := h
    cases hb
  | cons b rest ih =>
    intro s h
    rw [List.foldl_cons]
    obtain ⟨b', hb', hmu'⟩ := h
    rcases List.mem_cons.mp hb' with rfl | h2
    · exact LocalDocumentsView.missingPatchKeys_mono_outer existingDocs mu.key rest _
        (LocalDocumentsView.missingPatchKeys_mem_inner existingDocs mu hc b'.mutations s hmu')
    · exact ih _ ⟨b', h2, hmu'⟩

/-- The per-mutation key-collection fold preserves key-set uniqueness. -/
theorem LocalDocumentsView.missingPatchKeys_nodup_inner (existingDocs : DocumentMap)
    (muts : List Mutation) :
    ∀ s : DocumentKeySet, s.Nodup →
      (muts.foldl
        (fun s m =>
          if m.isPatch && !(DocumentMap.containsKey existingDocs m.key) then
            DocumentKeySet.insert s m.key
          else s) s).Nodup := by
  induction muts with
  | nil => exact fun s hs => hs
  | cons m rest ih =>
    intro s hs
    rw [List.foldl_cons]
    apply ih
    by_cases h : (m.isPatch && !(DocumentMap.containsKey existingDocs m.key)) = true
    · rw [if_pos h]
      exact DocumentKeySet.nodup_insert s m.key hs
    · rwa [if_neg h]

/-- `missingPatchKeys` is a duplicate-free key set. -/
theorem LocalDocumentsView.missingPatchKeys_nodup (existingDocs : DocumentMap)
    (batches : List MutationBatch) :
    (LocalDocumentsView.missingPatchKeys batches existingDocs).Nodup := by
  unfold LocalDocumentsView.missingPatchKeys
  suffices hgen : ∀ s : DocumentKeySet, s.Nodup →
      (batches.foldl
        (fun s b =>
          b.mutations.foldl
            (fun s m =>
              if m.isPatch && !(DocumentMap.containsKey existingDocs m.key) then
                DocumentKeySet.insert s m.key
              else s) s) s).Nodup by
    exact hgen [] List.nodup_nil
  induction batches with
  | nil => exact fun s hs => hs
  | cons b rest ih =>
    intro s hs
    rw [List.foldl_cons]
    exact ih _ (LocalDocumentsView.missingPatchKeys_nodup_inner existingDocs b.mutations s hs)

/-- Looking up in the conditional insert fold of `AddMissingBaseDocuments`,
when the inserted entries have unique keys. -/
theorem DocumentMap.lookup_condInsertFold (l : MutableDocumentMap) (init : DocumentMap)
    (k : DocumentKey) (hl : DocumentMap.NodupKeys l) :
    DocumentMap.lookup
        (l.foldl
          (fun acc e => if e.2.isFoundDocument then DocumentMap.insert acc e.1 e.2 else acc)
          init) k =
      match DocumentMap.lookup l k with
      | some d =>
        if d.isFoundDocument then some d else DocumentMap.lookup init k
      | none => DocumentMap.lookup init k := by
  induction l generalizing init with
  | nil => simp [DocumentMap.lookup]
  | cons e rest ih =>
    have hk : e.1 ∉ rest.map Prod.fst := (List.nodup_cons.mp hl).1
    have hrest : DocumentMap.NodupKeys rest := (List.nodup_cons.mp hl).2
    rw [List.foldl_cons, ih _ hrest]
    by_cases h : e.1 = k
    · subst h
      rw [DocumentMap.lookup_eq_none rest e.1 hk]
      cases hf : e.2.isFoundDocument with
      | true => simp [DocumentMap.lookup, DocumentMap.lookup_insert, hf]
      | false => simp [DocumentMap.lookup, hf]
    · have hstep : DocumentMap.lookup
          (if e.2.isFoundDocument = true then DocumentMap.insert init e.1 e.2 else init) k =
          DocumentMap.lookup init k := by
        cases hf : e.2.isFoundDocument with
        | true => simp [DocumentMap.lookup_insert, h]
        | false => simp
      simp only [hstep]
      rw [show DocumentMap.lookup (e :: rest) k = DocumentMap.lookup rest k from by
        rw [DocumentMap.lookup, if_neg h]]

def exKeyC3 : DocumentKey := ["b", "1"]

def exPatchMutC3 : Mutation :=
  ⟨exKeyC3, MutationOp.patch [("a", 3)] ["a"], Precondition.existsDoc true⟩

def exBatchC3 : MutationBatch := ⟨1, 50, [exPatchMutC3]⟩

def exViewC3 : LocalDocumentsView := ⟨RemoteDocumentCache.empty, ⟨[exBatchC3]⟩, exIndexA⟩

/-- C3 counterexample: a patch mutation whose target key has no cached base
document.  The key is fetched (via `GetAll`) but, because the base resolves
to the `Invalid` variant, it is *not* inserted into the working result set —
contradicting the claim that every such key's base document is inserted. -/
theorem addMissingBaseDocuments_missing_base_not_inserted :
    Mutation.isPatch exPatchMutC3 = true ∧
    DocumentMap.containsKey (RemoteDocumentCache.GetMatching exViewC3.cache exQueryB 0)
      exKeyC3 = false ∧
    DocumentMap.lookup
      (LocalDocumentsView.AddMissingBaseDocuments exViewC3 [exBatchC3]
        (RemoteDocumentCache.GetMatching exViewC3.cache exQueryB 0)) exKeyC3 = none := by
  refine ⟨rfl, rfl, rfl⟩

/-- C3 amended: for every patch mutation across the affecting batches whose
target key is not already in the working result set, the base document is
fetched from the remote document cache before any mutation is folded, and it
is inserted exactly when it resolves to a found document; a key whose base
is missing or deleted is left out of the working set. -/
theorem addMissingBaseDocuments_inserts_found_base (v : LocalDocumentsView)
    (matchingBatches : List MutationBatch) (existingDocs : DocumentMap)
    (mu : Mutation) (hmu : ∃ b ∈ matchingBatches, mu ∈ b.mutations)
    (hpatch : Mutation.isPatch mu = true)
    (hmiss : DocumentMap.containsKey existingDocs mu.key = false) :
    DocumentMap.lookup
        (LocalDocumentsView.AddMissingBaseDocuments v matchingBatches existingDocs) mu.key =
      if (RemoteDocumentCache.Get v.cache mu.key).isFoundDocument
      then some (RemoteDocumentCache.Get v.cache mu.key)
      else none := by
  have hc : (mu.isPatch && !(DocumentMap.containsKey existingDocs mu.key)) = true := by
    rw [hpatch, hmiss]
    rfl
  have hkmem : mu.key ∈ LocalDocumentsView.missingPatchKeys matchingBatches existingDocs :=
    LocalDocumentsView.missingPatchKeys_mem existingDocs mu hc matchingBatches [] hmu
  have hnodup : (LocalDocumentsView.missingPatchKeys matchingBatches existingDocs).Nodup :=
    LocalDocumentsView.missingPatchKeys_nodup existingDocs matchingBatches
  have hnodupKeys : DocumentMap.NodupKeys (RemoteDocumentCache.GetAll v.cache
      (LocalDocumentsView.missingPatchKeys matchingBatches existingDocs)) := by
    have hfst : (RemoteDocumentCache.GetAll v.cache
        (LocalDocumentsView.missingPatchKeys matchingBatches existingDocs)).map Prod.fst =
        LocalDocumentsView.missingPatchKeys matchingBatches existingDocs := by
      unfold RemoteDocumentCache.GetAll
      rw [List.map_map]
      exact List.map_id _
    unfold DocumentMap.NodupKeys
    rw [hfst]
    exact hnodup
  have heq : LocalDocumentsView.AddMissingBaseDocuments v matchingBatches existingDocs =
      (RemoteDocumentCache.GetAll v.cache
        (LocalDocumentsView.missingPatchKeys matchingBatches existingDocs)).foldl
        (fun acc e => if e.2.isFoundDocument then DocumentMap.insert acc e.1 e.2 else acc)
        existingDocs := rfl
  rw [heq, DocumentMap.lookup_condInsertFold _ _ _ hnodupKeys]
  have htab : DocumentMap.lookup (RemoteDocumentCache.GetAll v.cache
      (LocalDocumentsView.missingPatchKeys matchingBatches existingDocs)) mu.key =
      if mu.key ∈ LocalDocumentsView.missingPatchKeys matchingBatches existingDocs
      then some (RemoteDocumentCache.Get v.cache mu.key) else none :=
    DocumentMap.lookup_tabulate _ (fun key => RemoteDocumentCache.Get v.cache key) mu.key
  rw [htab, if_pos hkmem]
  have hnone : DocumentMap.lookup existingDocs mu.key = none := by
    unfold DocumentMap.containsKey at hmiss
    cases hcase : DocumentMap.lookup existingDocs mu.key with
    | none => rfl
    | some d =>
      rw [hcase] at hmiss
      cases hmiss
  cases hf : (RemoteDocumentCache.Get v.cache mu.key).isFoundDocument with
  | true => simp [hf]
  | false => simp [hf, hnone]

def exCacheC3w : RemoteDocumentCache :=
  RemoteDocumentCache.Add RemoteDocumentCache.empty
    (MutableDocument.foundDocument exKeyC3 9 [("a", 1), ("z", 4)]) 9

def exViewC3w : LocalDocumentsView := ⟨exCacheC3w, ⟨[exBatchC3]⟩, exIndexA⟩

/-- Witness for the amended C3: with a found base document in the cache, the
patch mutation's missing key is inserted with exactly that base document. -/
theorem addMissingBaseDocuments_inserts_found_base_witness :
    DocumentMap.lookup
        (LocalDocumentsView.AddMissingBaseDocuments exViewC3w [exBatchC3] []) exKeyC3 =
      some (MutableDocument.foundDocument exKeyC3 9 [("a", 1), ("z", 4)]) := by
  have h := addMissingBaseDocuments_inserts_found_base exViewC3w [exBatchC3] []
    exPatchMutC3 ⟨exBatchC3, by decide, by decide⟩ (by decide) (by decide)
  exact h.trans (by decide)

end Firestore
